import Mathlib

/-
Verification of the model-catalog and cache-reconciliation engine of the
`si` repository (file `src/models.rs`).  The Rust code is shallowly
embedded: the catalog file is modelled as an abstract file state holding a
JSON document, the HuggingFace cache as a finite directory tree, and the
hub client as an oracle supplied in the state.  All functions below are
direct translations of the corresponding Rust functions and keep their
names.
-/

namespace Si

/-- Embedded counterpart of `ModelFile` (models.rs, lines 62-66): a file
size in bytes together with its filesystem path (paths are modelled as
strings, matching the serialized form). -/
structure ModelFile where
  size : Nat
  path : String
deriving DecidableEq, Repr

/-- Embedded counterpart of `ModelInfo` (models.rs, lines 29-37). -/
structure ModelInfo where
  model_id : String
  files : List ModelFile
deriving DecidableEq, Repr

/-- Embedded counterpart of `ModelInfo::new` (models.rs, lines 40-45). -/
def ModelInfo.new (model_id : String) (files : List ModelFile) : ModelInfo :=
  { model_id := model_id, files := files }

/-- Embedded counterpart of `ModelIndexData` (models.rs, lines 190-193). -/
structure ModelIndexData where
  models : List ModelInfo
deriving DecidableEq, Repr

/-- Embedded counterpart of `SyncResult` (models.rs, lines 74-80). -/
structure SyncResult where
  messages : List String
  models_added_to_index : List String
  models_removed_from_index : List String
  models_in_index_but_missing_locally : List String
deriving DecidableEq, Repr

/-- Embedded counterpart of `SyncResult::new` (models.rs, lines 89-96). -/
def SyncResult.new : SyncResult :=
  { messages := [], models_added_to_index := [],
    models_removed_from_index := [], models_in_index_but_missing_locally := [] }

/-- Embedded counterpart of `SyncResult::add_message` (models.rs, lines 98-100). -/
def SyncResult.add_message (r : SyncResult) (m : String) : SyncResult :=
  { r with messages := r.messages ++ [m] }

/-- Embedded counterpart of `SyncResult::add_model_to_index` (models.rs, lines 102-104). -/
def SyncResult.add_model_to_index (r : SyncResult) (model_id : String) : SyncResult :=
  { r with models_added_to_index := r.models_added_to_index ++ [model_id] }

/-- Embedded counterpart of `SyncResult::remove_model_from_index` (models.rs, lines 106-108). -/
def SyncResult.remove_model_from_index (r : SyncResult) (model_id : String) : SyncResult :=
  { r with models_removed_from_index := r.models_removed_from_index ++ [model_id] }

/-- Embedded counterpart of `SyncResult::mark_model_missing_locally` (models.rs, lines 110-112). -/
def SyncResult.mark_model_missing_locally (r : SyncResult) (model_id : String) : SyncResult :=
  { r with models_in_index_but_missing_locally :=
      r.models_in_index_but_missing_locally ++ [model_id] }

/-- Embedded counterpart of `SyncResult::discrepancies_count` (models.rs, lines 114-118). -/
def SyncResult.discrepancies_count (r : SyncResult) : Nat :=
  r.models_added_to_index.length + r.models_removed_from_index.length
    + r.models_in_index_but_missing_locally.length

/-- Error taxonomy of the embedding; each constructor corresponds to one
family of `anyhow` errors produced in models.rs. -/
inductive ModelErr where
  | parseError
  | ioError
  | notFoundCacheDir (model_id : String)
  | infoFailed (model_id : String)
  | downloadFailed (file : String)
  | metadataFailed (path : String)
deriving DecidableEq, Repr

/-- JSON documents, the serde data model that `serde_json::to_writer` and
`serde_json::from_reader` operate on in models.rs. -/
inductive Json where
  | null
  | bool (b : Bool)
  | num (n : Nat)
  | str (s : String)
  | arr (xs : List Json)
  | obj (fields : List (String × Json))

/-- Lookup of a field in a serialized JSON object, as serde does when
deserializing a named-field struct. -/
def jsonField : List (String × Json) → String → Option Json
  | [], _ => none
  | (k, v) :: rest, name => if k = name then some v else jsonField rest name

/-- Serialization of a `ModelFile` as derived by `#[derive(Serialize)]`
(models.rs, line 62). -/
def ModelFile.toJson (f : ModelFile) : Json :=
  Json.obj [("size", Json.num f.size), ("path", Json.str f.path)]

/-- Serialization of a `ModelInfo` as derived by `#[derive(Serialize)]`
(models.rs, line 29). -/
def ModelInfo.toJson (m : ModelInfo) : Json :=
  Json.obj [("model_id", Json.str m.model_id),
            ("files", Json.arr (m.files.map ModelFile.toJson))]

/-- Serialization of `ModelIndexData` as derived by `#[derive(Serialize)]`
(models.rs, line 190). -/
def ModelIndexData.toJson (d : ModelIndexData) : Json :=
  Json.obj [("models", Json.arr (d.models.map ModelInfo.toJson))]

/-- Deserialization of a `ModelFile`, following the derived serde
deserializer: an object with a numeric `size` field and a string `path`
field. -/
def parseModelFile : Json → Option ModelFile
  | Json.obj fields =>
    match jsonField fields ("size"), jsonField fields ("path") with
    | some (Json.num sz), some (Json.str p) => some { size := sz, path := p }
    | _, _ => none
  | _ => none

/-- Deserialization of a homogeneous JSON array, element by element;
any failing element fails the whole array, as in serde. -/
def parseList (f : Json → Option α) : List Json → Option (List α)
  | [] => some []
  | j :: rest =>
    match f j, parseList f rest with
    | some a, some as => some (a :: as)
    | _, _ => none

/-- Deserialization of a `ModelInfo`: object with a string `model_id`
field and an array `files` field. -/
def parseModelInfo : Json → Option ModelInfo
  | Json.obj fields =>
    match jsonField fields ("model_id"), jsonField fields ("files") with
    | some (Json.str mid), some (Json.arr xs) =>
      match parseList parseModelFile xs with
      | some fs => some { model_id := mid, files := fs }
      | none => none
    | _, _ => none
  | _ => none

/-- Deserialization of `ModelIndexData`: object with an array `models`
field. -/
def parseModelIndexData : Json → Option ModelIndexData
  | Json.obj fields =>
    match jsonField fields ("models") with
    | some (Json.arr xs) =>
      match parseList parseModelInfo xs with
      | some ms => some { models := ms }
      | none => none
    | _ => none
  | _ => none

/-- Reasons why `File::open` can fail in `ModelIndex::model_index_data`
(models.rs, line 157); the Rust code matches `Err(_)`, so every kind is
treated alike. -/
inductive OpenFailure where
  | notFound
  | permissionDenied
  | otherIoError
deriving DecidableEq, Repr

/-- State of the backing catalog file (`model_index.json`): either opening
it fails with some I/O error, or it opens and holds a JSON document. -/
inductive CatalogFile where
  | openFail (e : OpenFailure)
  | opened (doc : Json)

/-- Embedded counterpart of `ModelIndex::model_index_data` (models.rs,
lines 156-174): an open failure of any kind yields the empty index; an
opened file is parsed, and a parse failure is an error. -/
def model_index_data : CatalogFile → Except ModelErr ModelIndexData
  | CatalogFile.openFail _ => Except.ok { models := [] }
  | CatalogFile.opened j =>
    match parseModelIndexData j with
    | some d => Except.ok d
    | none => Except.error ModelErr.parseError

/-- Embedded counterpart of `ModelIndex::save` (models.rs, lines 176-187):
the index data is serialized and becomes the new content of the catalog
file. -/
def saveIndex (d : ModelIndexData) : CatalogFile :=
  CatalogFile.opened d.toJson

/-- The in-place replace-or-append of `ModelIndex::add_model` (models.rs,
lines 145-151): replace the first record whose `model_id` matches, else
append at the end. -/
def upsertModels : List ModelInfo → ModelInfo → List ModelInfo
  | [], m => [m]
  | x :: rest, m =>
    if x.model_id = m.model_id then m :: rest else x :: upsertModels rest m

/-- Embedded counterpart of `ModelIndex::add_model` (models.rs, lines
141-154): load the index (propagating a parse error), upsert the record,
save. -/
def add_model (f : CatalogFile) (m : ModelInfo) : Except ModelErr CatalogFile :=
  match model_index_data f with
  | Except.error e => Except.error e
  | Except.ok d => Except.ok (saveIndex { models := upsertModels d.models m })

/-- Embedded counterpart of `ModelIndex::models` (models.rs, lines
136-139) and `ModelManager::list_models` (lines 260-262), which only adds
error context. -/
def list_models (f : CatalogFile) : Except ModelErr (List ModelInfo) :=
  match model_index_data f with
  | Except.error e => Except.error e
  | Except.ok d => Except.ok d.models

/-- Splitting a character list on the two-character separator used by the
HuggingFace cache naming convention, with the semantics of Rust's
`str::split("--")` (models.rs, line 429): non-overlapping matches scanned
left to right, empty segments kept. -/
def splitDD : List Char → List (List Char)
  | [] => [[]]
  | '-' :: '-' :: rest => [] :: splitDD rest
  | c :: rest =>
    match splitDD rest with
    | [] => [[c]]
    | g :: gs => (c :: g) :: gs

/-- Embedded counterpart of
`ModelManager::extract_model_id_from_hf_cache_path` (models.rs, lines
424-437): split the directory name on the separator; when there are at
least three parts and the first equals the tag, join the 2nd and 3rd with
a slash, otherwise return the empty string (never an error). -/
def extract_model_id_from_hf_cache_path (name : String) : String :=
  match splitDD name.data with
  | tag :: org :: repo :: _ =>
    if tag = "models".data then String.mk (org ++ '/' :: repo) else ""
  | _ => ""

/-- A directory tree as read by the scanner: an entry is a regular file
with a size, or a directory with named children. -/
inductive FsTree where
  | file (size : Nat)
  | dir (entries : List (String × FsTree))

/-- Lookup of a named child inside a directory listing (the model of
`Path::join` followed by `exists`). -/
def lookupEntry : List (String × FsTree) → String → Option FsTree
  | [], _ => none
  | (n, t) :: rest, name => if n = name then some t else lookupEntry rest name

/-- Whether a directory listing contains at least one sub-directory (the
inner loop of `is_likely_hf_model_cache`, models.rs lines 413-419). -/
def hasSubdirectory : List (String × FsTree) → Bool
  | [] => false
  | (_, FsTree.dir _) :: _ => true
  | (_, FsTree.file _) :: rest => hasSubdirectory rest

/-- Embedded counterpart of `ModelManager::is_likely_hf_model_cache`
(models.rs, lines 404-422): the entry must contain both `snapshots` and
`refs`, and `snapshots` must be a readable directory with at least one
sub-directory. -/
def is_likely_hf_model_cache (entries : List (String × FsTree)) : Bool :=
  match lookupEntry entries ("snapshots"), lookupEntry entries ("refs") with
  | some (FsTree.dir ses), some _ => hasSubdirectory ses
  | _, _ => false

/-- Whether an entry name starts with the hidden-file marker, as tested by
`name_str.starts_with('.')` (models.rs, line 385). -/
def hiddenName (name : String) : Bool :=
  match name.data with
  | '.' :: _ => true
  | _ => false

/-- The filtering applied to a single cache-root entry by the loop body of
`ModelManager::scan_hf_cache` (models.rs, lines 372-399): skip files, skip
hidden names, skip non-candidates, and skip names that parse to the empty
id; otherwise produce the parsed id. -/
def entryModelId : String × FsTree → Option String
  | (_, FsTree.file _) => none
  | (n, FsTree.dir es) =>
    if hiddenName n then none
    else if is_likely_hf_model_cache es then
      let model_id := extract_model_id_from_hf_cache_path n
      if model_id = "" then none else some model_id
    else none

/-- The loop of `ModelManager::scan_hf_cache` over the immediate entries
of the cache root, accumulating the `HashSet` of ids as an
insertion-ordered duplicate-free list. -/
def scanEntries : List (String × FsTree) → List String → List String
  | [], acc => acc
  | e :: rest, acc =>
    match entryModelId e with
    | none => scanEntries rest acc
    | some model_id =>
      if acc.contains model_id then scanEntries rest acc
      else scanEntries rest (acc ++ [model_id])

/-- Embedded counterpart of `ModelManager::scan_hf_cache` (models.rs,
lines 358-402): a missing cache root yields the empty set, otherwise the
root's immediate entries are scanned. -/
def scan_hf_cache (cacheRoot : Option (List (String × FsTree))) : List String :=
  match cacheRoot with
  | none => []
  | some entries => scanEntries entries []

/-- The whole world a `ModelManager` call can observe: the catalog file,
the HuggingFace cache root (`none` when the cache path does not exist),
and the hub client's local path resolver `cache_repo.get` combined with
`fs::metadata` — for a model id and a file name it returns the resolved
path, if any, paired with the size if metadata succeeds. -/
structure SysState where
  catalog : CatalogFile
  cacheRoot : Option (List (String × FsTree))
  resolve : String → String → Option (String × Option Nat)

/-- The fixed list of well-known file names probed by
`reconstruct_model_info_from_cache` (models.rs, lines 447-457). -/
def commonFiles : List String :=
  ["config.json", "model.safetensors", "pytorch_model.bin", "model.bin",
   "tokenizer.json", "tokenizer_config.json", "vocab.json", "merges.txt",
   "special_tokens_map.json"]

/-- The probe loop of `reconstruct_model_info_from_cache` (models.rs,
lines 459-468): each well-known name that resolves to a path with
readable metadata contributes a `ModelFile`; resolution or metadata
failures are silently skipped. -/
def probeCommonFiles (s : SysState) (model_id : String) : List ModelFile :=
  (commonFiles.map (s.resolve model_id)).foldl
    (fun acc r =>
      match r with
      | some (p, some sz) => acc ++ [{ size := sz, path := p }]
      | _ => acc) []

/-- Replacing every slash by the two-dash separator, the model of
`model_id.replace('/', "--")` (models.rs, line 484). -/
def replaceSlash : List Char → List Char
  | [] => []
  | '/' :: rest => '-' :: '-' :: replaceSlash rest
  | c :: rest => c :: replaceSlash rest

/-- The cache directory name derived from a model id (models.rs, line
484): `models--` followed by the id with slashes replaced. -/
def cacheDirName (model_id : String) : String :=
  "models--" ++ String.mk (replaceSlash model_id.data)

/-- Embedded counterpart of `ModelManager::find_hf_cache_directory`
(models.rs, lines 479-495): the derived directory must exist under the
cache root and be a directory, otherwise the call fails. -/
def find_hf_cache_directory (s : SysState) (model_id : String) :
    Except ModelErr (List (String × FsTree)) :=
  match s.cacheRoot with
  | none => Except.error (ModelErr.notFoundCacheDir model_id)
  | some root =>
    match lookupEntry root (cacheDirName model_id) with
    | some (FsTree.dir es) => Except.ok es
    | _ => Except.error (ModelErr.notFoundCacheDir model_id)

mutual
/-- Embedded counterpart of one entry step of
`ModelManager::collect_files_recursively` (models.rs, lines 525-543): a
file contributes its size and full path, a directory is walked
recursively. -/
def collectEntry (p : String) (n : String) : FsTree → List ModelFile
  | FsTree.file sz => [{ size := sz, path := p ++ "/" ++ n }]
  | FsTree.dir es => collectEntriesRec (p ++ "/" ++ n) es

/-- Embedded counterpart of the entry loop of
`ModelManager::collect_files_recursively`, in directory-listing order. -/
def collectEntriesRec (p : String) : List (String × FsTree) → List ModelFile
  | [] => []
  | (n, t) :: rest => collectEntry p n t ++ collectEntriesRec p rest
end

/-- The snapshot loop of `ModelManager::collect_model_files_from_hf_cache`
(models.rs, lines 508-521): walk each sub-directory of `snapshots` in
listing order and stop after the first one that yields any file. -/
def collectFromSnapshots (p : String) : List (String × FsTree) → List ModelFile
  | [] => []
  | (_, FsTree.file _) :: rest => collectFromSnapshots p rest
  | (n, FsTree.dir es) :: rest =>
    let fs := collectEntriesRec (p ++ "/" ++ n) es
    if fs.isEmpty then collectFromSnapshots p rest else fs

/-- Embedded counterpart of
`ModelManager::collect_model_files_from_hf_cache` (models.rs, lines
497-523): a missing `snapshots` child yields no files and no error; a
`snapshots` child that is a regular file makes `fs::read_dir` fail, which
the code propagates. -/
def collect_model_files_from_hf_cache (dirName : String)
    (entries : List (String × FsTree)) : Except ModelErr (List ModelFile) :=
  match lookupEntry entries ("snapshots") with
  | none => Except.ok []
  | some (FsTree.file _) => Except.error ModelErr.ioError
  | some (FsTree.dir ses) =>
    Except.ok (collectFromSnapshots (dirName ++ "/snapshots") ses)

/-- Embedded counterpart of
`ModelManager::reconstruct_model_info_from_cache` (models.rs, lines
439-477): probe the well-known file names first; only when that yields
nothing, resolve the cache directory (failing if absent) and fall back to
walking its first non-empty snapshot. -/
def reconstruct_model_info_from_cache (s : SysState) (model_id : String) :
    Except ModelErr ModelInfo :=
  let files := probeCommonFiles s model_id
  if files.isEmpty then
    match find_hf_cache_directory s model_id with
    | Except.error e => Except.error e
    | Except.ok es =>
      match collect_model_files_from_hf_cache (cacheDirName model_id) es with
      | Except.error e => Except.error e
      | Except.ok fs => Except.ok (ModelInfo.new model_id fs)
  else Except.ok (ModelInfo.new model_id files)

/-- The hub client as seen by `ModelManager::download_model` (models.rs,
lines 264-296): `info` returns the sibling file names of the model,
`download` resolves one sibling to a local path or fails, and
`metadataLen` is `fs::metadata(..).len()` on the downloaded path. -/
structure HubModel where
  info : Except ModelErr (List String)
  download : String → Except ModelErr String
  metadataLen : String → Except ModelErr Nat

/-- The sequential download loop of `ModelManager::download_model`
(models.rs, lines 273-287): each sibling is downloaded and stat-ed in
order; the first failure of either step aborts the whole loop with that
error. -/
def downloadFiles (hub : HubModel) : List String → Except ModelErr (List ModelFile)
  | [] => Except.ok []
  | f :: rest =>
    match hub.download f with
    | Except.error e => Except.error e
    | Except.ok p =>
      match hub.metadataLen p with
      | Except.error e => Except.error e
      | Except.ok sz =>
        match downloadFiles hub rest with
        | Except.error e => Except.error e
        | Except.ok fs => Except.ok ({ size := sz, path := p } :: fs)

/-- Embedded counterpart of `ModelManager::download_model` (models.rs,
lines 264-296), returning the call result together with the catalog file
after the call: the record is upserted only after every sibling
downloaded; any earlier failure leaves the catalog untouched. -/
def download_model (cat : CatalogFile) (hub : HubModel) (model_id : String) :
    Except ModelErr ModelInfo × CatalogFile :=
  match hub.info with
  | Except.error e => (Except.error e, cat)
  | Except.ok siblings =>
    match downloadFiles hub siblings with
    | Except.error e => (Except.error e, cat)
    | Except.ok fs =>
      let model_info := ModelInfo.new model_id fs
      match add_model cat model_info with
      | Except.error e => (Except.error e, cat)
      | Except.ok cat2 => (Except.ok model_info, cat2)

/-- Insertion-ordered duplicate removal, the model of collecting the
indexed model ids into a `HashSet` (models.rs, lines 307-308). -/
def dedupIds : List String → List String → List String
  | [], acc => acc
  | x :: rest, acc =>
    if acc.contains x then dedupIds rest acc else dedupIds rest (acc ++ [x])

/-- The `list_models().unwrap_or_default()` step of `sync_models`
(models.rs, line 306): a failing catalog read is swallowed and replaced
by the empty list. -/
def listModelsOrDefault (f : CatalogFile) : List ModelInfo :=
  match list_models f with
  | Except.ok ms => ms
  | Except.error _ => []

/-- The first loop of `ModelManager::sync_models` (models.rs, lines
314-339) over the locally present ids, threading the report and the
catalog file: ids already indexed are skipped; in dry-run mode an id is
only recorded; otherwise reconstruction is attempted, a reconstruction
failure is logged and skipped, while an `add_model` failure propagates
through the `?` operator and aborts the sync. -/
def syncLoop (s : SysState) (dry_run : Bool) (indexedIds : List String) :
    List String → SyncResult → CatalogFile →
    Except ModelErr (SyncResult × CatalogFile)
  | [], r, cat => Except.ok (r, cat)
  | model_id :: rest, r, cat =>
    if indexedIds.contains model_id then syncLoop s dry_run indexedIds rest r cat
    else
      let r := r.add_message ("Found local model " ++ model_id ++ " not in index")
      if dry_run then
        syncLoop s dry_run indexedIds rest (r.add_model_to_index model_id) cat
      else
        match reconstruct_model_info_from_cache s model_id with
        | Except.ok model_info =>
          match add_model cat model_info with
          | Except.error e => Except.error e
          | Except.ok cat2 =>
            let r := (r.add_model_to_index model_id).add_message
              ("Added " ++ model_id ++ " to index")
            syncLoop s dry_run indexedIds rest r cat2
        | Except.error _ =>
          syncLoop s dry_run indexedIds rest
            (r.add_message ("Failed to add " ++ model_id ++ " to index")) cat

/-- The second loop of `ModelManager::sync_models` (models.rs, lines
342-349): every indexed id not present locally is logged and marked
missing; the catalog is never touched here. -/
def syncMissingLoop (present : List String) :
    List String → SyncResult → SyncResult
  | [], r => r
  | model_id :: rest, r =>
    if present.contains model_id then syncMissingLoop present rest r
    else
      syncMissingLoop present rest
        ((r.add_message ("Model " ++ model_id ++ " in index but missing in HF cache")).mark_model_missing_locally
          model_id)

/-- Embedded counterpart of `ModelManager::sync_models` (models.rs, lines
302-356), returning the report together with the catalog file after the
call. -/
def sync_models (s : SysState) (dry_run : Bool) :
    Except ModelErr (SyncResult × CatalogFile) :=
  let indexedIds := dedupIds ((listModelsOrDefault s.catalog).map ModelInfo.model_id) []
  let present := scan_hf_cache s.cacheRoot
  match syncLoop s dry_run indexedIds present SyncResult.new s.catalog with
  | Except.error e => Except.error e
  | Except.ok (r, cat) =>
    let r := syncMissingLoop present indexedIds r
    let r := if r.discrepancies_count = 0 then r.add_message ("All models are in sync!") else r
    Except.ok (r, cat)

/-- The ids recorded in a catalog file: the ids of the parsed document,
or none when the file is unreadable or malformed. -/
def catalogIds (f : CatalogFile) : List String :=
  match model_index_data f with
  | Except.ok d => d.models.map ModelInfo.model_id
  | Except.error _ => []

/-- Whether reading the catalog file succeeds (open failure counts as
success, because `model_index_data` turns it into the empty index). -/
def catalogReadable (f : CatalogFile) : Bool :=
  match model_index_data f with
  | Except.ok _ => true
  | Except.error _ => false

/-- The deduplicated indexed-id set computed at the start of
`sync_models` (models.rs, lines 306-308). -/
def indexedIdsOf (f : CatalogFile) : List String :=
  dedupIds ((listModelsOrDefault f).map ModelInfo.model_id) []

/-- The tail of `sync_models` after the first loop (models.rs, lines
342-355): record the indexed-but-missing ids, then add the all-in-sync
message when no discrepancy was found. -/
def postSync (present idx : List String) (r : SyncResult) : SyncResult :=
  let r := syncMissingLoop present idx r
  if r.discrepancies_count = 0 then r.add_message ("All models are in sync!") else r

/-- The pure report transformer realized by the first sync loop in
dry-run mode, where the catalog is never read or written. -/
def dryLoop (idx : List String) : List String → SyncResult → SyncResult
  | [], r => r
  | model_id :: rest, r =>
    if idx.contains model_id then dryLoop idx rest r
    else
      dryLoop idx rest
        ((r.add_message ("Found local model " ++ model_id ++ " not in index")).add_model_to_index
          model_id)

/-- A hub client whose every download fails, used as a concrete witness
input. -/
def hubFailW : HubModel :=
  { info := Except.ok ["model.bin"],
    download := fun f => Except.error (ModelErr.downloadFailed f),
    metadataLen := fun _ => Except.ok 0 }

/-- A concrete world with an absent catalog and two cache entries: the
name `models--a--b--c` parses to the id `a/b` whose own cache directory
`models--a--b` does not exist, so its reconstruction fails, while
`models--x--y` reconstructs fine. -/
def syncWitnessState : SysState :=
  { catalog := CatalogFile.openFail OpenFailure.notFound,
    cacheRoot :=
      some
        [("models--a--b--c",
          FsTree.dir
            [("refs", FsTree.dir []),
             ("snapshots", FsTree.dir [("h1", FsTree.dir [("f.bin", FsTree.file 100)])])]),
         ("models--x--y",
          FsTree.dir
            [("refs", FsTree.dir []),
             ("snapshots", FsTree.dir [("h1", FsTree.dir [("g.bin", FsTree.file 20)])])])],
    resolve := fun _ _ => none }

/-! Helper lemmas shared by the claim theorems. -/

theorem parseModelFile_toJson (f : ModelFile) : parseModelFile f.toJson = some f := by
  cases f
  rfl

theorem parseList_map {α : Type} (f : Json → Option α) (g : α → Json)
    (h : ∀ a, f (g a) = some a) (l : List α) : parseList f (l.map g) = some l := by
  induction l with
  | nil => rfl
  | cons a as ih => simp [List.map, parseList, h a, ih]

theorem parseModelInfo_toJson (m : ModelInfo) : parseModelInfo m.toJson = some m := by
  cases m with
  | mk mid fs =>
    simp [ModelInfo.toJson, parseModelInfo, jsonField,
      parseList_map parseModelFile ModelFile.toJson parseModelFile_toJson]

theorem parseModelIndexData_toJson (d : ModelIndexData) :
    parseModelIndexData d.toJson = some d := by
  cases d with
  | mk ms =>
    simp [ModelIndexData.toJson, parseModelIndexData, jsonField,
      parseList_map parseModelInfo ModelInfo.toJson parseModelInfo_toJson]

theorem model_index_data_saveIndex (d : ModelIndexData) :
    model_index_data (saveIndex d) = Except.ok d := by
  simp [model_index_data, saveIndex, parseModelIndexData_toJson]

theorem mem_upsert_ids (ms : List ModelInfo) (m : ModelInfo) (k : String) :
    k ∈ (upsertModels ms m).map ModelInfo.model_id ↔
      k ∈ ms.map ModelInfo.model_id ∨ k = m.model_id := by
  induction ms with
  | nil => simp [upsertModels]
  | cons x rest ih =>
    by_cases h : x.model_id = m.model_id
    · rw [upsertModels, if_pos h, List.map_cons, List.mem_cons, List.map_cons,
        List.mem_cons, h]
      tauto
    · rw [upsertModels, if_neg h, List.map_cons, List.mem_cons, List.map_cons,
        List.mem_cons, ih]
      tauto

theorem upsert_nodup (ms : List ModelInfo) (m : ModelInfo)
    (h : (ms.map ModelInfo.model_id).Nodup) :
    ((upsertModels ms m).map ModelInfo.model_id).Nodup := by
  induction ms with
  | nil => simp [upsertModels]
  | cons x rest ih =>
    rw [List.map_cons, List.nodup_cons] at h
    by_cases hx : x.model_id = m.model_id
    · rw [upsertModels, if_pos hx, List.map_cons, List.nodup_cons]
      exact ⟨hx ▸ h.1, h.2⟩
    · rw [upsertModels]
      simp only [if_neg hx, List.map_cons, List.nodup_cons]
      refine ⟨fun hmem => ?_, ih h.2⟩
      rcases (mem_upsert_ids rest m x.model_id).mp hmem with h1 | h1
      · exact h.1 h1
      · exact hx h1

theorem filter_id_nil (ms : List ModelInfo) (k : String)
    (h : k ∉ ms.map ModelInfo.model_id) :
    ms.filter (fun y => y.model_id == k) = [] := by
  induction ms with
  | nil => rfl
  | cons x rest ih =>
    rw [List.map_cons, List.mem_cons] at h
    push_neg at h
    rw [List.filter_cons]
    have hx : (x.model_id == k) = false := by
      simp only [beq_eq_false_iff_ne, ne_eq]
      exact fun hc => h.1 hc.symm
    simp [hx, ih h.2]

theorem upsert_filter (ms : List ModelInfo) (m : ModelInfo)
    (h : (ms.map ModelInfo.model_id).Nodup) :
    (upsertModels ms m).filter (fun y => y.model_id == m.model_id) = [m] := by
  induction ms with
  | nil => simp [upsertModels]
  | cons x rest ih =>
    rw [List.map_cons, List.nodup_cons] at h
    by_cases hx : x.model_id = m.model_id
    · rw [upsertModels, if_pos hx]
      rw [List.filter_cons]
      simp only [beq_self_eq_true, if_pos]
      rw [filter_id_nil rest m.model_id (hx ▸ h.1)]
    · rw [upsertModels, if_neg hx]
      rw [List.filter_cons]
      have hxf : (x.model_id == m.model_id) = false := by
        simp only [beq_eq_false_iff_ne, ne_eq]
        exact hx
      simp [hxf, ih h.2]

theorem catalogIds_saveIndex (d : ModelIndexData) :
    catalogIds (saveIndex d) = d.models.map ModelInfo.model_id := by
  simp [catalogIds, model_index_data_saveIndex]

theorem catalogReadable_saveIndex (d : ModelIndexData) :
    catalogReadable (saveIndex d) = true := by
  simp [catalogReadable, model_index_data_saveIndex]

theorem add_model_of_readable (cat : CatalogFile) (m : ModelInfo)
    (h : catalogReadable cat = true) :
    ∃ cat2, add_model cat m = Except.ok cat2 ∧ catalogReadable cat2 = true ∧
      ∀ k ∈ catalogIds cat, k ∈ catalogIds cat2 := by
  unfold catalogReadable at h
  cases hd : model_index_data cat with
  | error e => rw [hd] at h; exact absurd h (by simp)
  | ok d =>
    refine ⟨saveIndex { models := upsertModels d.models m }, ?_, ?_, ?_⟩
    · unfold add_model; rw [hd]
    · exact catalogReadable_saveIndex _
    · intro k hk
      unfold catalogIds at hk ⊢
      rw [hd] at hk
      rw [model_index_data_saveIndex]
      exact (mem_upsert_ids d.models m k).mpr (Or.inl hk)

theorem add_model_ok_ids (cat : CatalogFile) (m : ModelInfo) (cat2 : CatalogFile)
    (h : add_model cat m = Except.ok cat2) :
    ∀ k ∈ catalogIds cat, k ∈ catalogIds cat2 := by
  unfold add_model at h
  cases hd : model_index_data cat with
  | error e => rw [hd] at h; exact absurd h (by simp)
  | ok d =>
    rw [hd] at h
    simp only [Except.ok.injEq] at h
    subst h
    intro k hk
    unfold catalogIds at hk ⊢
    rw [hd] at hk
    rw [model_index_data_saveIndex]
    exact (mem_upsert_ids d.models m k).mpr (Or.inl hk)

theorem syncLoop_removed_ids (s : SysState) (dry : Bool) (idx : List String) :
    ∀ ids r cat r' cat', syncLoop s dry idx ids r cat = Except.ok (r', cat') →
      r'.models_removed_from_index = r.models_removed_from_index ∧
      ∀ k ∈ catalogIds cat, k ∈ catalogIds cat' := by
  intro ids
  induction ids with
  | nil =>
    intro r cat r' cat' h
    rw [syncLoop] at h
    simp only [Except.ok.injEq, Prod.mk.injEq] at h
    obtain ⟨h1, h2⟩ := h
    subst h1; subst h2
    exact ⟨rfl, fun k hk => hk⟩
  | cons id rest ih =>
    intro r cat r' cat' h
    rw [syncLoop] at h
    split at h
    · exact ih _ _ _ _ h
    · split at h
      · exact ⟨(ih _ _ _ _ h).1, (ih _ _ _ _ h).2⟩
      · split at h
        · split at h
          · exact absurd h (by simp)
          · rename_i x1 model_info hrec x2 cat2 hadd
            obtain ⟨h1, h2⟩ := ih _ _ _ _ h
            exact ⟨h1, fun k hk => h2 k (add_model_ok_ids cat model_info cat2 hadd k hk)⟩
        · exact ⟨(ih _ _ _ _ h).1, (ih _ _ _ _ h).2⟩

theorem syncLoop_nondry_ok (s : SysState) (idx : List String) :
    ∀ ids r cat, catalogReadable cat = true →
      ∃ r' cat', syncLoop s false idx ids r cat = Except.ok (r', cat') ∧
        r'.models_added_to_index = r.models_added_to_index ++
          ids.filter
            (fun i => !idx.contains i &&
              (reconstruct_model_info_from_cache s i).isOk) := by
  intro ids
  induction ids with
  | nil =>
    intro r cat _
    exact ⟨r, cat, by rw [syncLoop], by simp⟩
  | cons id rest ih =>
    intro r cat hcat
    by_cases hc : idx.contains id
    · obtain ⟨r', cat', h1, h2⟩ := ih r cat hcat
      refine ⟨r', cat', ?_, ?_⟩
      · rw [syncLoop, if_pos hc]
        exact h1
      · rw [h2, List.filter_cons_of_neg (by rw [hc]; simp)]
    · have hcf : idx.contains id = false := by
        rw [← Bool.not_eq_true]; exact hc
      cases hrec : reconstruct_model_info_from_cache s id with
      | ok mi =>
        obtain ⟨cat2, hadd, hcat2, _⟩ := add_model_of_readable cat mi hcat
        obtain ⟨r', cat', h1, h2⟩ :=
          ih (((r.add_message ("Found local model " ++ id ++ " not in index")).add_model_to_index
            id).add_message ("Added " ++ id ++ " to index")) cat2 hcat2
        refine ⟨r', cat', ?_, ?_⟩
        · rw [syncLoop, if_neg hc]
          simp only [if_neg (by decide : ¬false = true), hrec, hadd]
          exact h1
        · rw [h2, List.filter_cons_of_pos (by rw [hcf, hrec]; rfl)]
          simp [SyncResult.add_message, SyncResult.add_model_to_index]
      | error e =>
        obtain ⟨r', cat', h1, h2⟩ :=
          ih ((r.add_message ("Found local model " ++ id ++ " not in index")).add_message
            ("Failed to add " ++ id ++ " to index")) cat hcat
        refine ⟨r', cat', ?_, ?_⟩
        · rw [syncLoop, if_neg hc]
          simp only [if_neg (by decide : ¬false = true), hrec]
          exact h1
        · rw [h2, List.filter_cons_of_neg (by rw [hrec]; simp [Except.isOk, Except.toBool])]
          rfl

theorem syncLoop_dry_eq (s : SysState) (idx : List String) :
    ∀ ids r cat, syncLoop s true idx ids r cat = Except.ok (dryLoop idx ids r, cat) := by
  intro ids
  induction ids with
  | nil => intro r cat; rw [syncLoop, dryLoop]
  | cons id rest ih =>
    intro r cat
    rw [syncLoop, dryLoop]
    by_cases hc : idx.contains id
    · rw [if_pos hc, if_pos hc]
      exact ih r cat
    · rw [if_neg hc, if_neg hc]
      simp only [if_pos (rfl : (true : Bool) = true)]
      exact ih _ cat

theorem dryLoop_added (idx : List String) :
    ∀ ids r, (dryLoop idx ids r).models_added_to_index =
      r.models_added_to_index ++ ids.filter (fun i => !idx.contains i) := by
  intro ids
  induction ids with
  | nil => intro r; simp [dryLoop]
  | cons id rest ih =>
    intro r
    rw [dryLoop]
    by_cases hc : idx.contains id
    · rw [if_pos hc, ih, List.filter_cons_of_neg (by rw [hc]; simp)]
    · have hcf : idx.contains id = false := by
        rw [← Bool.not_eq_true]; exact hc
      rw [if_neg hc, ih, List.filter_cons_of_pos (by rw [hcf]; rfl)]
      simp [SyncResult.add_message, SyncResult.add_model_to_index]

theorem dryLoop_removed (idx : List String) :
    ∀ ids r, (dryLoop idx ids r).models_removed_from_index =
      r.models_removed_from_index := by
  intro ids
  induction ids with
  | nil => intro r; rw [dryLoop]
  | cons id rest ih =>
    intro r
    rw [dryLoop]
    by_cases hc : idx.contains id
    · rw [if_pos hc]; exact ih r
    · rw [if_neg hc]; exact ih _

theorem syncMissingLoop_added (present : List String) :
    ∀ l r, (syncMissingLoop present l r).models_added_to_index =
      r.models_added_to_index := by
  intro l
  induction l with
  | nil => intro r; rw [syncMissingLoop]
  | cons id rest ih =>
    intro r
    rw [syncMissingLoop]
    by_cases hc : present.contains id
    · rw [if_pos hc]; exact ih r
    · rw [if_neg hc]; exact ih _

theorem syncMissingLoop_removed (present : List String) :
    ∀ l r, (syncMissingLoop present l r).models_removed_from_index =
      r.models_removed_from_index := by
  intro l
  induction l with
  | nil => intro r; rw [syncMissingLoop]
  | cons id rest ih =>
    intro r
    rw [syncMissingLoop]
    by_cases hc : present.contains id
    · rw [if_pos hc]; exact ih r
    · rw [if_neg hc]; exact ih _

theorem sync_models_dry (s : SysState) :
    sync_models s true =
      Except.ok
        (postSync (scan_hf_cache s.cacheRoot) (indexedIdsOf s.catalog)
          (dryLoop (indexedIdsOf s.catalog) (scan_hf_cache s.cacheRoot) SyncResult.new),
         s.catalog) := by
  simp only [sync_models, indexedIdsOf, syncLoop_dry_eq, postSync]

theorem postSync_added (present idx : List String) (r : SyncResult) :
    (postSync present idx r).models_added_to_index = r.models_added_to_index := by
  simp only [postSync]
  split
  · simp [SyncResult.add_message, syncMissingLoop_added]
  · simp [syncMissingLoop_added]

theorem postSync_removed (present idx : List String) (r : SyncResult) :
    (postSync present idx r).models_removed_from_index =
      r.models_removed_from_index := by
  simp only [postSync]
  split
  · simp [SyncResult.add_message, syncMissingLoop_removed]
  · simp [syncMissingLoop_removed]

theorem extract_of_parse (n : String) (org repo : List Char) (more : List (List Char))
    (h : splitDD n.data = "models".data :: org :: repo :: more) :
    extract_model_id_from_hf_cache_path n = String.mk (org ++ '/' :: repo) := by
  unfold extract_model_id_from_hf_cache_path
  rw [h]
  simp

theorem string_mk_slash_ne_empty (org repo : List Char) :
    String.mk (org ++ '/' :: repo) ≠ "" := by
  intro hc
  have hd := congrArg String.data hc
  simp at hd

theorem extract_parse_of_ne_empty (n : String)
    (h : extract_model_id_from_hf_cache_path n ≠ "") :
    ∃ org repo more, splitDD n.data = "models".data :: org :: repo :: more ∧
      extract_model_id_from_hf_cache_path n = String.mk (org ++ '/' :: repo) := by
  unfold extract_model_id_from_hf_cache_path at h ⊢
  rcases hsplit : splitDD n.data with _ | ⟨tag, _ | ⟨org, _ | ⟨repo, more⟩⟩⟩
  · rw [hsplit] at h
    exact absurd rfl h
  · rw [hsplit] at h
    exact absurd rfl h
  · rw [hsplit] at h
    exact absurd rfl h
  · by_cases ht : tag = "models".data
    · subst ht
      refine ⟨org, repo, more, rfl, ?_⟩
      simp
    · rw [hsplit] at h
      exact absurd (by simp [ht]) h

theorem entryModelId_eq_some (n : String) (t : FsTree) (model_id : String) :
    entryModelId (n, t) = some model_id ↔
      ∃ es, t = FsTree.dir es ∧ hiddenName n = false ∧
        is_likely_hf_model_cache es = true ∧
        ∃ org repo more, splitDD n.data = "models".data :: org :: repo :: more ∧
          model_id = String.mk (org ++ '/' :: repo) := by
  cases t with
  | file sz => simp [entryModelId]
  | dir es =>
    constructor
    · intro h
      simp only [entryModelId] at h
      by_cases hh : hiddenName n = true
      · rw [if_pos hh] at h; cases h
      · rw [if_neg hh] at h
        by_cases hl : is_likely_hf_model_cache es = true
        · rw [if_pos hl] at h
          by_cases he : extract_model_id_from_hf_cache_path n = ""
          · rw [if_pos he] at h; cases h
          · rw [if_neg he] at h
            obtain ⟨org, repo, more, hsplit, hex⟩ := extract_parse_of_ne_empty n he
            injection h with h
            refine ⟨es, rfl, (Bool.not_eq_true _) ▸ hh, hl, org, repo, more, hsplit, ?_⟩
            rw [← h, hex]
        · rw [if_neg hl] at h; cases h
    · rintro ⟨es', hes, hh, hl, org, repo, more, hsplit, hid⟩
      injection hes with hes'
      subst hes'
      have hex := extract_of_parse n org repo more hsplit
      simp only [entryModelId]
      rw [if_neg (by rw [hh]; exact Bool.false_ne_true),
        if_pos hl, if_neg (hex ▸ string_mk_slash_ne_empty org repo), hex, hid]

theorem mem_scanEntries :
    ∀ (entries : List (String × FsTree)) (acc : List String) (model_id : String),
      model_id ∈ scanEntries entries acc ↔
        model_id ∈ acc ∨ ∃ e ∈ entries, entryModelId e = some model_id := by
  intro entries
  induction entries with
  | nil => intro acc mid; simp [scanEntries]
  | cons e rest ih =>
    intro acc mid
    cases he : entryModelId e with
    | none =>
      rw [show scanEntries (e :: rest) acc = scanEntries rest acc by
        rw [scanEntries, he], ih]
      simp only [List.mem_cons]
      constructor
      · rintro (h | ⟨x, hx, hsome⟩)
        · exact Or.inl h
        · exact Or.inr ⟨x, Or.inr hx, hsome⟩
      · rintro (h | ⟨x, hx | hx, hsome⟩)
        · exact Or.inl h
        · rw [hx] at hsome; rw [he] at hsome; cases hsome
        · exact Or.inr ⟨x, hx, hsome⟩
    | some found =>
      have hred : scanEntries (e :: rest) acc =
          if acc.contains found = true then scanEntries rest acc
          else scanEntries rest (acc ++ [found]) := by
        rw [scanEntries, he]
      have hmem : ∀ x, x ∈ e :: rest → (entryModelId x = some mid ↔
          (x = e ∧ found = mid) ∨ (x ∈ rest ∧ entryModelId x = some mid)) := by
        intro x hx
        constructor
        · intro hsome
          rcases List.mem_cons.mp hx with hxe | hxr
          · subst hxe
            rw [he] at hsome
            injection hsome with hsome
            exact Or.inl ⟨rfl, hsome⟩
          · exact Or.inr ⟨hxr, hsome⟩
        · rintro (⟨hxe, hf⟩ | ⟨_, hsome⟩)
          · subst hxe; rw [he, hf]
          · exact hsome
      by_cases hc : acc.contains found = true
      · rw [hred, if_pos hc, ih]
        have hfound : found ∈ acc := List.mem_of_elem_eq_true hc
        constructor
        · rintro (h | ⟨x, hx, hsome⟩)
          · exact Or.inl h
          · exact Or.inr ⟨x, List.mem_cons_of_mem e hx, hsome⟩
        · rintro (h | ⟨x, hx, hsome⟩)
          · exact Or.inl h
          · rcases (hmem x hx).mp hsome with ⟨hxe, hf⟩ | ⟨hxr, hsome'⟩
            · exact Or.inl (hf ▸ hfound)
            · exact Or.inr ⟨x, hxr, hsome'⟩
      · rw [hred, if_neg hc, ih]
        constructor
        · rintro (h | ⟨x, hx, hsome⟩)
          · rcases List.mem_append.mp h with h | h
            · exact Or.inl h
            · have : mid = found := by simpa using h
              exact Or.inr ⟨e, List.mem_cons_self e rest, by rw [he, this]⟩
          · exact Or.inr ⟨x, List.mem_cons_of_mem e hx, hsome⟩
        · rintro (h | ⟨x, hx, hsome⟩)
          · exact Or.inl (List.mem_append.mpr (Or.inl h))
          · rcases (hmem x hx).mp hsome with ⟨hxe, hf⟩ | ⟨hxr, hsome'⟩
            · exact Or.inl (List.mem_append.mpr (Or.inr (by simp [hf])))
            · exact Or.inr ⟨x, hxr, hsome'⟩

/-! Claim theorems. -/

/-- Claim C1, counterexample: the scanner does not require exactly three
segments.  The directory name `models--a--b--c` splits into four segments,
yet a well-formed candidate directory of that name contributes the entry
`a/b` to the scan result, where the claim says it contributes none. -/
theorem scan_extra_segments_counterexample :
    (splitDD ("models--a--b--c".data)).length = 4 ∧
      scan_hf_cache
        (some
          [("models--a--b--c",
            FsTree.dir
              [("refs", FsTree.dir []),
               ("snapshots", FsTree.dir [("h1", FsTree.dir [("f.bin", FsTree.file 100)])])])]) =
        ["a/b"] :=
  ⟨rfl, rfl⟩

/-- Claim C1, amended: an id is in the scan result exactly when some
non-hidden candidate directory's name splits on the separator into AT
LEAST three segments whose first equals `models`; the id is the 2nd and
3rd segments joined by a slash, any further segments being ignored, and a
directory that does not parse this way contributes nothing (no error, no
empty-string entry, as the derived id always contains a slash). -/
theorem scan_membership_characterization
    (root : List (String × FsTree)) (model_id : String) :
    model_id ∈ scan_hf_cache (some root) ↔
      ∃ n es, (n, FsTree.dir es) ∈ root ∧ hiddenName n = false ∧
        is_likely_hf_model_cache es = true ∧
        ∃ org repo more, splitDD n.data = "models".data :: org :: repo :: more ∧
          model_id = String.mk (org ++ '/' :: repo) := by
  rw [scan_hf_cache, mem_scanEntries]
  simp only [List.not_mem_nil, false_or]
  constructor
  · rintro ⟨⟨n, t⟩, hmem, hsome⟩
    obtain ⟨es, ht, hh, hl, org, repo, more, hsplit, hid⟩ :=
      (entryModelId_eq_some n t model_id).mp hsome
    subst ht
    exact ⟨n, es, hmem, hh, hl, org, repo, more, hsplit, hid⟩
  · rintro ⟨n, es, hmem, hh, hl, org, repo, more, hsplit, hid⟩
    exact ⟨(n, FsTree.dir es), hmem,
      (entryModelId_eq_some n (FsTree.dir es) model_id).mpr
        ⟨es, rfl, hh, hl, org, repo, more, hsplit, hid⟩⟩

/-- Claim C2, counterexample: when the probe finds nothing and the model's
cache directory exists but its only snapshot is empty, reconstruction
returns `Ok` with an empty file list instead of the error the claim
demands. -/
theorem reconstruct_empty_record_counterexample :
    reconstruct_model_info_from_cache
      { catalog := CatalogFile.openFail OpenFailure.notFound,
        cacheRoot :=
          some
            [("models--a--b",
              FsTree.dir
                [("refs", FsTree.dir []), ("snapshots", FsTree.dir [("h1", FsTree.dir [])])])],
        resolve := fun _ _ => none }
      "a/b" = Except.ok (ModelInfo.new "a/b" []) :=
  rfl

/-- Claim C2, amended: reconstruction fails exactly when the well-known
filename probe finds no file and either the model's derived cache
directory does not exist as a directory, or its `snapshots` child is a
regular file (an unreadable directory); in every other case it returns a
record, possibly with an empty file list. -/
theorem reconstruct_error_characterization (s : SysState) (model_id : String) :
    (∃ e, reconstruct_model_info_from_cache s model_id = Except.error e) ↔
      probeCommonFiles s model_id = [] ∧
        ((∃ e, find_hf_cache_directory s model_id = Except.error e) ∨
          ∃ es sz, find_hf_cache_directory s model_id = Except.ok es ∧
            lookupEntry es ("snapshots") = some (FsTree.file sz)) := by
  have hrw : reconstruct_model_info_from_cache s model_id =
      (if (probeCommonFiles s model_id).isEmpty then
        match find_hf_cache_directory s model_id with
        | Except.error e => Except.error e
        | Except.ok es =>
          match collect_model_files_from_hf_cache (cacheDirName model_id) es with
          | Except.error e => Except.error e
          | Except.ok fs => Except.ok (ModelInfo.new model_id fs)
      else Except.ok (ModelInfo.new model_id (probeCommonFiles s model_id))) := rfl
  rw [hrw]
  by_cases hp : (probeCommonFiles s model_id).isEmpty = true
  · have hpl : probeCommonFiles s model_id = [] := by
      cases hq : probeCommonFiles s model_id with
      | nil => rfl
      | cons a l => rw [hq] at hp; cases hp
    rw [if_pos hp]
    cases hf : find_hf_cache_directory s model_id with
    | error e =>
      constructor
      · intro _
        exact ⟨hpl, Or.inl ⟨e, rfl⟩⟩
      · intro _
        exact ⟨e, rfl⟩
    | ok es =>
      cases hl : lookupEntry es ("snapshots") with
      | none =>
        simp only [collect_model_files_from_hf_cache, hl]
        constructor
        · rintro ⟨e, he⟩
          cases he
        · rintro ⟨-, ⟨e, he⟩ | ⟨es', sz, hok, hlsnap⟩⟩
          · cases he
          · injection hok with hok
            subst hok
            rw [hl] at hlsnap
            cases hlsnap
      | some t =>
        cases t with
        | file sz =>
          simp only [collect_model_files_from_hf_cache, hl]
          constructor
          · intro _
            exact ⟨hpl, Or.inr ⟨es, sz, rfl, hl⟩⟩
          · intro _
            exact ⟨ModelErr.ioError, rfl⟩
        | dir ses =>
          simp only [collect_model_files_from_hf_cache, hl]
          constructor
          · rintro ⟨e, he⟩
            cases he
          · rintro ⟨-, ⟨e, he⟩ | ⟨es', sz, hok, hlsnap⟩⟩
            · cases he
            · injection hok with hok
              subst hok
              rw [hl] at hlsnap
              cases hlsnap
  · rw [if_neg hp]
    constructor
    · rintro ⟨e, he⟩
      cases he
    · rintro ⟨hpl, -⟩
      rw [hpl] at hp
      exact absurd rfl hp

theorem indexedIdsOf_opened_malformed (j : Json) (h : parseModelIndexData j = none) :
    indexedIdsOf (CatalogFile.opened j) = [] := by
  simp [indexedIdsOf, listModelsOrDefault, list_models, model_index_data, h, dedupIds]

/-- Claim C3, counterexample: a malformed catalog document does make a
non-dry-run sync raise, because the upsert of a locally present model
re-reads the catalog and propagates the parse error through the `?`
operator. -/
theorem sync_malformed_catalog_raises_counterexample :
    sync_models
      { catalog := CatalogFile.opened (Json.str "not an index"),
        cacheRoot :=
          some
            [("models--x--y",
              FsTree.dir
                [("refs", FsTree.dir []),
                 ("snapshots", FsTree.dir [("h1", FsTree.dir [("f.bin", FsTree.file 7)])])])],
        resolve := fun _ _ => none }
      false = Except.error ModelErr.parseError :=
  rfl

/-- Claim C3, amended: the step-1 `listModels` failure on a malformed
catalog is always swallowed and an empty indexed set substituted, and a
DRY-RUN sync on a malformed catalog never raises and returns exactly the
report of the same sync run against an absent (hence empty) catalog; a
non-dry-run sync, however, can still fail on the same malformed document
when the upsert re-reads it. -/
theorem sync_dry_run_malformed_catalog_as_empty
    (j : Json) (root : Option (List (String × FsTree)))
    (res : String → String → Option (String × Option Nat))
    (h : parseModelIndexData j = none) :
    ∃ r, sync_models ⟨CatalogFile.opened j, root, res⟩ true =
        Except.ok (r, CatalogFile.opened j) ∧
      sync_models ⟨CatalogFile.openFail OpenFailure.notFound, root, res⟩ true =
        Except.ok (r, CatalogFile.openFail OpenFailure.notFound) := by
  refine ⟨postSync (scan_hf_cache root) [] (dryLoop [] (scan_hf_cache root) SyncResult.new),
    ?_, ?_⟩
  · rw [sync_models_dry]
    dsimp only
    rw [indexedIdsOf_opened_malformed j h]
  · rw [sync_models_dry]
    rfl

/-- Claim C3, witness for the amended theorem at a concrete malformed
document. -/
theorem sync_dry_run_malformed_catalog_witness :
    parseModelIndexData (Json.str "not an index") = none ∧
      ∃ r, sync_models ⟨CatalogFile.opened (Json.str "not an index"), none, fun _ _ => none⟩
          true = Except.ok (r, CatalogFile.opened (Json.str "not an index")) ∧
        sync_models ⟨CatalogFile.openFail OpenFailure.notFound, none, fun _ _ => none⟩ true =
          Except.ok (r, CatalogFile.openFail OpenFailure.notFound) :=
  ⟨rfl, sync_dry_run_malformed_catalog_as_empty (Json.str "not an index") none
    (fun _ _ => none) rfl⟩

/-- Claim C4: a dry-run sync returns the catalog file unchanged — no write
ever happens — and records exactly the locally present ids that are not
indexed in the report's added set. -/
theorem sync_dry_run_no_catalog_write (s : SysState) :
    ∃ r, sync_models s true = Except.ok (r, s.catalog) ∧
      r.models_added_to_index =
        (scan_hf_cache s.cacheRoot).filter
          (fun i => !(indexedIdsOf s.catalog).contains i) := by
  refine ⟨_, sync_models_dry s, ?_⟩
  rw [postSync_added, dryLoop_added]
  rfl

/-- Claim C5: upserting `x` twice leaves exactly one record for `x`
carrying the second file list (wholesale replace), and every upsert
preserves uniqueness of `modelId` within the catalog. -/
theorem upsert_replace_and_unique :
    (∀ (f : CatalogFile) (d : ModelIndexData) (x : String) (f1 f2 : ModelFile),
      model_index_data f = Except.ok d →
      (d.models.map ModelInfo.model_id).Nodup →
      ∃ f' f'' d'',
        add_model f (ModelInfo.new x [f1]) = Except.ok f' ∧
        add_model f' (ModelInfo.new x [f2]) = Except.ok f'' ∧
        model_index_data f'' = Except.ok d'' ∧
        d''.models.filter (fun m => m.model_id == x) = [ModelInfo.new x [f2]] ∧
        (d''.models.map ModelInfo.model_id).Nodup) ∧
    ∀ (ms : List ModelInfo) (m : ModelInfo),
      (ms.map ModelInfo.model_id).Nodup →
      ((upsertModels ms m).map ModelInfo.model_id).Nodup := by
  constructor
  · intro f d x f1 f2 hd hnd
    refine ⟨saveIndex { models := upsertModels d.models (ModelInfo.new x [f1]) },
      saveIndex
        { models :=
            upsertModels (upsertModels d.models (ModelInfo.new x [f1])) (ModelInfo.new x [f2]) },
      { models :=
          upsertModels (upsertModels d.models (ModelInfo.new x [f1])) (ModelInfo.new x [f2]) },
      ?_, ?_, ?_, ?_, ?_⟩
    · unfold add_model
      rw [hd]
    · unfold add_model
      rw [model_index_data_saveIndex]
    · exact model_index_data_saveIndex _
    · have h1 : ((upsertModels d.models (ModelInfo.new x [f1])).map ModelInfo.model_id).Nodup :=
        upsert_nodup _ _ hnd
      simpa [ModelInfo.new] using
        upsert_filter (upsertModels d.models (ModelInfo.new x [f1])) (ModelInfo.new x [f2]) h1
    · exact upsert_nodup _ _ (upsert_nodup _ _ hnd)
  · intro ms m h
    exact upsert_nodup ms m h

/-- Claim C5, witness: two upserts of `x` on the empty catalog, checked at
concrete file lists. -/
theorem upsert_replace_and_unique_witness :
    model_index_data (CatalogFile.openFail OpenFailure.notFound) =
        Except.ok { models := [] } ∧
      ∃ f' f'' d'',
        add_model (CatalogFile.openFail OpenFailure.notFound)
          (ModelInfo.new "x" [{ size := 1, path := "p1" }]) = Except.ok f' ∧
        add_model f' (ModelInfo.new "x" [{ size := 2, path := "p2" }]) = Except.ok f'' ∧
        model_index_data f'' = Except.ok d'' ∧
        d''.models.filter (fun m => m.model_id == "x") =
          [ModelInfo.new "x" [{ size := 2, path := "p2" }]] ∧
        (d''.models.map ModelInfo.model_id).Nodup :=
  ⟨rfl, upsert_replace_and_unique.1 (CatalogFile.openFail OpenFailure.notFound)
    { models := [] } "x" { size := 1, path := "p1" } { size := 2, path := "p2" }
    rfl List.nodup_nil⟩

/-- Claim C6: when the sequential download loop fails, `download_model`
returns that error and the catalog file is exactly what it was before the
call — no record is upserted. -/
theorem download_failure_leaves_catalog_untouched
    (cat : CatalogFile) (hub : HubModel) (model_id : String)
    (siblings : List String) (e : ModelErr)
    (hinfo : hub.info = Except.ok siblings)
    (hfail : downloadFiles hub siblings = Except.error e) :
    download_model cat hub model_id = (Except.error e, cat) := by
  unfold download_model
  rw [hinfo]
  dsimp only
  rw [hfail]

/-- Claim C6, witness: a hub whose single sibling download fails leaves a
concrete catalog untouched. -/
theorem download_failure_witness :
    hubFailW.info = Except.ok ["model.bin"] ∧
      downloadFiles hubFailW ["model.bin"] =
        Except.error (ModelErr.downloadFailed "model.bin") ∧
      download_model (CatalogFile.openFail OpenFailure.notFound) hubFailW "x/y" =
        (Except.error (ModelErr.downloadFailed "model.bin"),
          CatalogFile.openFail OpenFailure.notFound) :=
  ⟨rfl, rfl,
    download_failure_leaves_catalog_untouched (CatalogFile.openFail OpenFailure.notFound)
      hubFailW "x/y" ["model.bin"] (ModelErr.downloadFailed "model.bin") rfl rfl⟩

theorem sync_models_eq (s : SysState) (dry : Bool) :
    sync_models s dry =
      match syncLoop s dry (indexedIdsOf s.catalog) (scan_hf_cache s.cacheRoot)
          SyncResult.new s.catalog with
      | Except.error e => Except.error e
      | Except.ok (r, cat) =>
        Except.ok (postSync (scan_hf_cache s.cacheRoot) (indexedIdsOf s.catalog) r, cat) :=
  rfl

/-- Claim C7: with a readable catalog, a non-dry-run sync never aborts on
a reconstruction failure: it returns a report whose added set consists of
exactly the locally present unindexed ids whose reconstruction succeeded,
the failing ones being skipped while the loop continues. -/
theorem sync_reconstruction_failure_isolated (s : SysState)
    (hcat : catalogReadable s.catalog = true) :
    ∃ r cat', sync_models s false = Except.ok (r, cat') ∧
      r.models_added_to_index =
        (scan_hf_cache s.cacheRoot).filter
          (fun i => !(indexedIdsOf s.catalog).contains i &&
            (reconstruct_model_info_from_cache s i).isOk) := by
  obtain ⟨r0, cat0, h1, h2⟩ :=
    syncLoop_nondry_ok s (indexedIdsOf s.catalog) (scan_hf_cache s.cacheRoot)
      SyncResult.new s.catalog hcat
  refine ⟨postSync (scan_hf_cache s.cacheRoot) (indexedIdsOf s.catalog) r0, cat0, ?_, ?_⟩
  · rw [sync_models_eq, h1]
  · rw [postSync_added, h2]
    rfl

/-- Claim C7, witness: in `syncWitnessState` the id `a/b` fails to
reconstruct while `x/y` succeeds; sync still returns a report and its
added set is exactly `x/y`. -/
theorem sync_reconstruction_failure_witness :
    catalogReadable syncWitnessState.catalog = true ∧
      (∃ e, reconstruct_model_info_from_cache syncWitnessState "a/b" = Except.error e) ∧
      (scan_hf_cache syncWitnessState.cacheRoot).filter
          (fun i => !(indexedIdsOf syncWitnessState.catalog).contains i &&
            (reconstruct_model_info_from_cache syncWitnessState i).isOk) = ["x/y"] ∧
      ∃ r cat', sync_models syncWitnessState false = Except.ok (r, cat') ∧
        r.models_added_to_index =
          (scan_hf_cache syncWitnessState.cacheRoot).filter
            (fun i => !(indexedIdsOf syncWitnessState.catalog).contains i &&
              (reconstruct_model_info_from_cache syncWitnessState i).isOk) :=
  ⟨rfl, ⟨ModelErr.notFoundCacheDir "a/b", rfl⟩, rfl,
    sync_reconstruction_failure_isolated syncWitnessState rfl⟩

/-- Claim C8: saving a catalog document and loading it back yields the
same document — same records in the same order, with identical file
lists. -/
theorem catalog_save_load_round_trip (d : ModelIndexData) :
    model_index_data (saveIndex d) = Except.ok d :=
  model_index_data_saveIndex d

/-- Claim C9: whenever sync returns a report, the removed-from-catalog set
is empty, and every id present in the catalog before the call is still
present after it — sync never deletes a record. -/
theorem sync_never_removes (s : SysState) (dry : Bool) (r : SyncResult)
    (cat' : CatalogFile) (h : sync_models s dry = Except.ok (r, cat')) :
    r.models_removed_from_index = [] ∧
      ∀ k ∈ catalogIds s.catalog, k ∈ catalogIds cat' := by
  rw [sync_models_eq] at h
  cases hloop : syncLoop s dry (indexedIdsOf s.catalog) (scan_hf_cache s.cacheRoot)
      SyncResult.new s.catalog with
  | error e =>
    rw [hloop] at h
    cases h
  | ok p =>
    obtain ⟨r0, cat0⟩ := p
    rw [hloop] at h
    simp only [Except.ok.injEq, Prod.mk.injEq] at h
    obtain ⟨hr, hcat⟩ := h
    subst hr
    subst hcat
    obtain ⟨h1, h2⟩ := syncLoop_removed_ids s dry _ _ _ _ _ _ hloop
    constructor
    · rw [postSync_removed, h1]
      rfl
    · exact h2

/-- Claim C9, witness: a sync over an empty world returns a report with an
empty removed set. -/
theorem sync_never_removes_witness :
    sync_models ⟨CatalogFile.openFail OpenFailure.notFound, none, fun _ _ => none⟩ false =
        Except.ok (SyncResult.mk ["All models are in sync!"] [] [] [],
          CatalogFile.openFail OpenFailure.notFound) ∧
      (SyncResult.mk ["All models are in sync!"] [] [] []).models_removed_from_index = [] ∧
      ∀ k ∈ catalogIds (CatalogFile.openFail OpenFailure.notFound),
        k ∈ catalogIds (CatalogFile.openFail OpenFailure.notFound) :=
  ⟨rfl, sync_never_removes ⟨CatalogFile.openFail OpenFailure.notFound, none, fun _ _ => none⟩
    false (SyncResult.mk ["All models are in sync!"] [] [] [])
    (CatalogFile.openFail OpenFailure.notFound) rfl⟩

/-- Claim C10: every kind of open failure — absence, permission denied, or
any other I/O error — yields the empty catalog document (and an empty
model list) rather than an error, and a parse error can only arise from a
file that was successfully opened but holds an unparseable document. -/
theorem open_failure_yields_empty_catalog :
    (∀ e, model_index_data (CatalogFile.openFail e) = Except.ok { models := [] } ∧
      list_models (CatalogFile.openFail e) = Except.ok []) ∧
    ∀ f, model_index_data f = Except.error ModelErr.parseError →
      ∃ j, f = CatalogFile.opened j ∧ parseModelIndexData j = none := by
  constructor
  · intro e
    exact ⟨rfl, rfl⟩
  · intro f h
    cases f with
    | openFail e => simp [model_index_data] at h
    | opened j =>
      refine ⟨j, rfl, ?_⟩
      unfold model_index_data at h
      dsimp only at h
      cases hp : parseModelIndexData j with
      | some d =>
        rw [hp] at h
        simp at h
      | none => rfl

/-- Claim C10, witness: a concrete unparseable document is rejected with a
parse error and is indeed an opened file whose parse fails. -/
theorem open_failure_witness :
    model_index_data (CatalogFile.opened (Json.str "oops")) =
        Except.error ModelErr.parseError ∧
      ∃ j, CatalogFile.opened (Json.str "oops") = CatalogFile.opened j ∧
        parseModelIndexData j = none :=
  ⟨rfl, open_failure_yields_empty_catalog.2 (CatalogFile.opened (Json.str "oops")) rfl⟩

end Si
